import Mathlib

/-
Verification development for the BotC Elo tracker (botc_elo.py, analytics.py).

Python floats are modelled as real numbers; Python ints as Int (game ids,
selector values) or Nat (counters); Python dicts keyed by player name as
insertion-ordered association lists, matching the iteration order that the
source relies on.
-/

set_option maxHeartbeats 1000000

noncomputable section

namespace Botc

/-- Constant DEFAULT_RATING = 1500 (botc_elo.py line 30). -/
def DEFAULT_RATING : ℝ := 1500

/-- Constant ELO_K_FACTOR = 32 (botc_elo.py line 31). -/
def ELO_K_FACTOR : ℝ := 32

/-- One entry of Player.rating_history (a rating snapshot):
game_number, date, rating, overall/good/evil win percentages
(None when the denominator is zero). -/
structure RatingEntry where
  game_number : Int
  date : String
  rating : ℝ
  overall_win_pct : Option ℝ
  good_win_pct : Option ℝ
  evil_win_pct : Option ℝ

/-- One entry of Player.game_history. -/
structure GameHistRec where
  game_number : Int
  date : String
  team : String
  role : String
  win : Bool
  rating_before : ℝ
  rating_after : ℝ
  initial_team : String
  roles : List String

/-- The Player class state (botc_elo.py lines 39-53). -/
structure Player where
  name : String
  current_rating : ℝ
  rating_history : List RatingEntry
  game_history : List GameHistRec
  games_overall : ℕ
  wins_overall : ℕ
  games_good : ℕ
  wins_good : ℕ
  games_evil : ℕ
  wins_evil : ℕ

/-- Player.__init__: fresh player at DEFAULT_RATING with empty histories
and zeroed counters. -/
def Player.new (name : String) : Player :=
  { name := name
    current_rating := DEFAULT_RATING
    rating_history := []
    game_history := []
    games_overall := 0
    wins_overall := 0
    games_good := 0
    wins_good := 0
    games_evil := 0
    wins_evil := 0 }

/-- Player.record_game (botc_elo.py lines 55-134): append a game record,
update the win/loss counters, and append a rating-history snapshot whose
percentages are computed from the just-updated counters. -/
def Player.record_game (p : Player) (game_number : Int) (date team role : String)
    (win : Bool) (rating_before rating_after : ℝ)
    (initial_team : Option String) (roles : Option (List String)) : Player :=
  let roles := roles.getD [role]
  let initial_team := initial_team.getD team
  let games_overall := p.games_overall + 1
  let wins_overall := p.wins_overall + (if win then 1 else 0)
  let games_good := p.games_good + (if team = "Good" then 1 else 0)
  let wins_good := p.wins_good + (if team = "Good" ∧ win then 1 else 0)
  let games_evil := p.games_evil + (if team ≠ "Good" ∧ team = "Evil" then 1 else 0)
  let wins_evil := p.wins_evil + (if team ≠ "Good" ∧ team = "Evil" ∧ win then 1 else 0)
  let overall_pct : Option ℝ :=
    if 0 < games_overall then some ((wins_overall : ℝ) / (games_overall : ℝ) * 100) else none
  let good_pct : Option ℝ :=
    if 0 < games_good then some ((wins_good : ℝ) / (games_good : ℝ) * 100) else none
  let evil_pct : Option ℝ :=
    if 0 < games_evil then some ((wins_evil : ℝ) / (games_evil : ℝ) * 100) else none
  { p with
    game_history := p.game_history ++
      [{ game_number := game_number, date := date, team := team, role := role,
         win := win, rating_before := rating_before, rating_after := rating_after,
         initial_team := initial_team, roles := roles }]
    games_overall := games_overall
    wins_overall := wins_overall
    games_good := games_good
    wins_good := wins_good
    games_evil := games_evil
    wins_evil := wins_evil
    rating_history := p.rating_history ++
      [{ game_number := game_number, date := date, rating := rating_after,
         overall_win_pct := overall_pct, good_win_pct := good_pct,
         evil_win_pct := evil_pct }] }

/-- One per-player entry inside a logged game record (the dicts produced by
parse_team_input plus the team stamped at submission time). Fields read
with dict.get in the source are Options. -/
structure PlayerEntry where
  name : String
  team : String
  role : Option String
  initial_team : Option String
  roles : Option (List String)
deriving DecidableEq

/-- One game record of the game log. -/
structure Game where
  game_id : Int
  date : String
  players : List PlayerEntry
  winning_team : String
  game_mode : String
  story_teller : String
deriving DecidableEq

/-- The global players dict: insertion-ordered map from name to Player. -/
abbrev PlayersMap := List (String × Player)

/-- Dict lookup by player name (first matching key). -/
def pmLookup (m : PlayersMap) (k : String) : Option Player :=
  match m with
  | [] => none
  | (n, p) :: rest => if n = k then some p else pmLookup rest k

/-- Dict in-place mutation of the value at key k (no-op when k is absent,
which the replay never hits because players are ensured first). -/
def pmUpdate (m : PlayersMap) (k : String) (f : Player → Player) : PlayersMap :=
  match m with
  | [] => []
  | (n, p) :: rest => if n = k then (n, f p) :: rest else (n, p) :: pmUpdate rest k f

/-- Loop of recalc_all lines 211-215: for every player name appearing in the
game, insert a fresh Player when the name is not yet a key (dict insertion
appends at the end). -/
def ensurePlayers (m : PlayersMap) (ps : List PlayerEntry) : PlayersMap :=
  ps.foldl
    (fun m e => if (pmLookup m e.name).isNone then m ++ [(e.name, Player.new e.name)] else m)
    m

/-- Function expected_score (botc_elo.py lines 190-191). -/
def expected_score (ratingA ratingB : ℝ) : ℝ :=
  1.0 / (1.0 + (10 : ℝ) ^ ((ratingB - ratingA) / 400))

/-- Filter building team_good (recalc_all line 217). -/
def teamGood (g : Game) : List PlayerEntry :=
  g.players.filter (fun e => e.team == "Good")

/-- Filter building team_evil (recalc_all line 218). -/
def teamEvil (g : Game) : List PlayerEntry :=
  g.players.filter (fun e => e.team == "Evil")

/-- Inner function team_average (recalc_all lines 220-223): mean of the
current ratings of the team members in list order; DEFAULT_RATING for an
empty team. The getD default is never hit: every entry name has been
ensured before any average is taken. -/
def team_average (m : PlayersMap) (team_list : List PlayerEntry) : ℝ :=
  if team_list = [] then DEFAULT_RATING
  else (team_list.map (fun e => ((pmLookup m e.name).getD (Player.new e.name)).current_rating)).sum
    / (team_list.length : ℝ)

/-- Value exp_good of recalc_all line 227, as a function of the pre-match
players map (the source computes it once, before the per-player loop,
from the map right after ensuring players). -/
def expGoodOf (m : PlayersMap) (g : Game) : ℝ :=
  expected_score (team_average (ensurePlayers m g.players) (teamGood g))
    (team_average (ensurePlayers m g.players) (teamEvil g))

/-- Value exp_evil of recalc_all line 228. -/
def expEvilOf (m : PlayersMap) (g : Game) : ℝ :=
  1.0 - expGoodOf m g

/-- Value result_good of recalc_all lines 230-233. -/
def resultGood (g : Game) : ℝ :=
  if g.winning_team = "Good" then 1 else 0

/-- Value result_evil of recalc_all lines 230-233. -/
def resultEvil (g : Game) : ℝ :=
  if g.winning_team = "Good" then 0 else 1

/-- Rating delta applied to one player entry of a game (recalc_all lines
238-241): the Good-side delta when the entry team is exactly the string
Good, the Evil-side delta otherwise. It depends on the pre-match map only
(the source fixes exp_good/exp_evil before the loop). -/
def entryDelta (m : PlayersMap) (g : Game) (e : PlayerEntry) : ℝ :=
  if e.team = "Good" then ELO_K_FACTOR * (resultGood g - expGoodOf m g)
  else ELO_K_FACTOR * (resultEvil g - expEvilOf m g)

/-- Body of the per-player loop of recalc_all (lines 235-256): read the
player, apply the delta, and record the game. The parameter m is the
pre-match map from which the deltas were fixed; acc is the evolving map. -/
def processEntry (m : PlayersMap) (g : Game) (acc : PlayersMap) (e : PlayerEntry) : PlayersMap :=
  pmUpdate acc e.name (fun pl =>
    let rating_before := pl.current_rating
    let delta := entryDelta m g e
    let new_rating := rating_before + delta
    let win := e.team == g.winning_team
    ({ pl with current_rating := new_rating }).record_game g.game_id g.date e.team
      (e.role.getD "") win rating_before new_rating e.initial_team e.roles)

/-- Processing of one game inside recalc_all (lines 210-256): ensure the
players, then fold the per-player loop over the entries. -/
def processGame (m : PlayersMap) (g : Game) : PlayersMap :=
  g.players.foldl (processEntry m g) (ensurePlayers m g.players)

/-- Reset of one player (recalc_all lines 197-206): back to DEFAULT_RATING,
empty histories, zeroed counters; only the name survives. -/
def resetPlayer (p : Player) : Player :=
  { p with
    current_rating := DEFAULT_RATING
    rating_history := []
    game_history := []
    games_overall := 0
    wins_overall := 0
    games_good := 0
    wins_good := 0
    games_evil := 0
    wins_evil := 0 }

/-- Sorting of the game log ascending by game_id (recalc_all line 209);
Python sorted is stable, as is List.mergeSort. -/
def sortGames (log : List Game) : List Game :=
  log.mergeSort (fun a b => a.game_id ≤ b.game_id)

/-- Function recalc_all (botc_elo.py lines 194-256): reset every player
already in the dict (stale entries are kept, only reset), then replay the
whole game log in ascending game_id order. -/
def recalc_all (m : PlayersMap) (log : List Game) : PlayersMap :=
  (sortGames log).foldl processGame (m.map (fun np => (np.1, resetPlayer np.2)))

/-- State of the replay after the first k games of the sorted log have been
processed (the intermediate states recalc_all passes through). -/
def partialReplay (m : PlayersMap) (log : List Game) (k : ℕ) : PlayersMap :=
  ((sortGames log).take k).foldl processGame (m.map (fun np => (np.1, resetPlayer np.2)))

theorem pmLookup_update_self (m : PlayersMap) (k : String) (f : Player → Player) :
    pmLookup (pmUpdate m k f) k = (pmLookup m k).map f := by
  induction m with
  | nil => simp [pmLookup, pmUpdate]
  | cons np rest ih =>
    by_cases h : np.1 = k
    · simp [pmLookup, pmUpdate, h]
    · simp [pmLookup, pmUpdate, h, ih]

theorem pmLookup_update_other (m : PlayersMap) (k j : String) (f : Player → Player)
    (h : j ≠ k) : pmLookup (pmUpdate m k f) j = pmLookup m j := by
  induction m with
  | nil => simp [pmLookup, pmUpdate]
  | cons np rest ih =>
    by_cases hk : np.1 = k
    · subst hk
      simp [pmLookup, pmUpdate, Ne.symm h]
    · simp [pmLookup, pmUpdate, hk, ih]

theorem pmLookup_append (m m2 : PlayersMap) (j : String) :
    pmLookup (m ++ m2) j =
      match pmLookup m j with
      | some p => some p
      | none => pmLookup m2 j := by
  induction m with
  | nil => simp [pmLookup]
  | cons np rest ih =>
    by_cases h : np.1 = j
    · simp [pmLookup, h]
    · simp [pmLookup, h, ih]

theorem pmUpdate_isSome (m : PlayersMap) (k j : String) (f : Player → Player)
    (h : (pmLookup m j).isSome) : (pmLookup (pmUpdate m k f) j).isSome := by
  by_cases hj : j = k
  · subst hj
    rw [pmLookup_update_self]
    cases hl : pmLookup m j with
    | some p => simp
    | none => rw [hl] at h; simp at h
  · rwa [pmLookup_update_other _ _ _ _ hj]

theorem ensure_step (m : PlayersMap) (e : PlayerEntry) (j : String)
    (h : (pmLookup m j).isSome) :
    (pmLookup (if (pmLookup m e.name).isNone then m ++ [(e.name, Player.new e.name)] else m)
      j).isSome := by
  by_cases hl : (pmLookup m e.name).isNone
  · rw [if_pos hl, pmLookup_append]
    cases hj : pmLookup m j with
    | some p => simp
    | none => rw [hj] at h; simp at h
  · rwa [if_neg hl]

theorem ensure_mono (ps : List PlayerEntry) (m : PlayersMap) (j : String)
    (h : (pmLookup m j).isSome) : (pmLookup (ensurePlayers m ps) j).isSome := by
  induction ps generalizing m with
  | nil => simpa [ensurePlayers] using h
  | cons e rest ih =>
    simp only [ensurePlayers, List.foldl_cons] at ih ⊢
    exact ih _ (ensure_step m e j h)

theorem ensure_mem (ps : List PlayerEntry) (m : PlayersMap) (e : PlayerEntry)
    (he : e ∈ ps) : (pmLookup (ensurePlayers m ps) e.name).isSome := by
  induction ps generalizing m with
  | nil => cases he
  | cons a rest ih =>
    simp only [ensurePlayers, List.foldl_cons]
    rcases List.mem_cons.mp he with rfl | htail
    · have hsome : (pmLookup (if (pmLookup m e.name).isNone then
          m ++ [(e.name, Player.new e.name)] else m) e.name).isSome := by
        cases hj : pmLookup m e.name with
        | some p => rw [if_neg (by simp [hj]), hj]; simp
        | none => rw [if_pos (by simp [hj]), pmLookup_append, hj]; simp [pmLookup]
      have := ensure_mono rest _ _ hsome
      simpa [ensurePlayers] using this
    · have := ih (if (pmLookup m a.name).isNone then
        m ++ [(a.name, Player.new a.name)] else m) htail
      simpa [ensurePlayers] using this

theorem processEntry_isSome (m : PlayersMap) (g : Game) (acc : PlayersMap)
    (e : PlayerEntry) (j : String) (h : (pmLookup acc j).isSome) :
    (pmLookup (processEntry m g acc e) j).isSome :=
  pmUpdate_isSome acc e.name j _ h

theorem processEntry_preserves_record (m : PlayersMap) (g : Game) (acc : PlayersMap)
    (e : PlayerEntry) (j : String) (pl : Player) (rec : GameHistRec)
    (hl : pmLookup acc j = some pl) (hr : rec ∈ pl.game_history) :
    ∃ pl2, pmLookup (processEntry m g acc e) j = some pl2 ∧ rec ∈ pl2.game_history := by
  unfold processEntry
  by_cases hj : j = e.name
  · subst hj
    rw [pmLookup_update_self, hl]
    refine ⟨_, rfl, ?_⟩
    simp only [Player.record_game]
    exact List.mem_append_left _ hr
  · rw [pmLookup_update_other _ _ _ _ hj]
    exact ⟨pl, hl, hr⟩

theorem foldl_preserves_record (m : PlayersMap) (g : Game) (l : List PlayerEntry)
    (acc : PlayersMap) (j : String) (pl : Player) (rec : GameHistRec)
    (hl : pmLookup acc j = some pl) (hr : rec ∈ pl.game_history) :
    ∃ pl2, pmLookup (l.foldl (processEntry m g) acc) j = some pl2 ∧
      rec ∈ pl2.game_history := by
  induction l generalizing acc pl with
  | nil => exact ⟨pl, hl, hr⟩
  | cons e rest ih =>
    obtain ⟨pl1, h1, h2⟩ := processEntry_preserves_record m g acc e j pl rec hl hr
    exact ih _ _ h1 h2

theorem processEntry_appends (m : PlayersMap) (g : Game) (acc : PlayersMap)
    (e : PlayerEntry) (pl : Player) (hl : pmLookup acc e.name = some pl) :
    ∃ pl2, pmLookup (processEntry m g acc e) e.name = some pl2 ∧
      ∃ rec ∈ pl2.game_history, rec.game_number = g.game_id ∧
        rec.rating_after - rec.rating_before = entryDelta m g e := by
  unfold processEntry
  rw [pmLookup_update_self, hl]
  refine ⟨_, rfl, ?_⟩
  simp only [Player.record_game]
  refine ⟨_, List.mem_append_right _ (List.mem_singleton.mpr rfl), rfl, ?_⟩
  simp

theorem foldl_delta_recorded (m : PlayersMap) (g : Game) (l : List PlayerEntry)
    (acc : PlayersMap) (hpres : ∀ e ∈ l, (pmLookup acc e.name).isSome) :
    ∀ e ∈ l, ∃ pl, pmLookup (l.foldl (processEntry m g) acc) e.name = some pl ∧
      ∃ rec ∈ pl.game_history, rec.game_number = g.game_id ∧
        rec.rating_after - rec.rating_before = entryDelta m g e := by
  induction l generalizing acc with
  | nil => intro e he; cases he
  | cons a rest ih =>
    intro e he
    rcases List.mem_cons.mp he with rfl | htail
    · have hsome := hpres e (List.mem_cons_self _ _)
      obtain ⟨pl, hl⟩ := Option.isSome_iff_exists.mp hsome
      obtain ⟨pl2, h2, rec, hrec, hnum, hdelta⟩ := processEntry_appends m g acc e pl hl
      simp only [List.foldl_cons]
      obtain ⟨pl3, h3, h4⟩ :=
        foldl_preserves_record m g rest (processEntry m g acc e) e.name pl2 rec h2 hrec
      exact ⟨pl3, h3, rec, h4, hnum, hdelta⟩
    · simp only [List.foldl_cons]
      refine ih _ (fun x hx => ?_) e htail
      exact processEntry_isSome m g acc a x.name (hpres x (List.mem_cons_of_mem _ hx))

/-- Record-level bridge: processing a game appends, for every entry of the
game, a game-history record whose rating change is exactly entryDelta. -/
theorem processGame_delta_recorded (m : PlayersMap) (g : Game) :
    ∀ e ∈ g.players, ∃ pl, pmLookup (processGame m g) e.name = some pl ∧
      ∃ rec ∈ pl.game_history, rec.game_number = g.game_id ∧
        rec.rating_after - rec.rating_before = entryDelta m g e := by
  intro e he
  unfold processGame
  exact foldl_delta_recorded m g g.players _
    (fun x hx => ensure_mem g.players m x hx) e he

/-- Expected score of a team against an equally rated one is one half:
the rating difference is zero, so the logistic term is 10 to the power 0. -/
theorem expected_score_self (r : ℝ) : expected_score r r = 1 / 2 := by
  unfold expected_score
  rw [sub_self, zero_div, Real.rpow_zero]
  norm_num

/-- Python str.split() without arguments: split on whitespace runs,
producing no empty tokens. -/
def pySplitWs (s : String) : List String :=
  (s.split (fun c => c.isWhitespace)).filter (fun t => !t.isEmpty)

/-- Python seg[0].upper() + seg[1:].lower(), also the behavior of
str.capitalize() on the ASCII tokens the form accepts. -/
def capitalizeFirst (s : String) : String :=
  match s.data with
  | [] => ""
  | c :: cs => String.mk (c.toUpper :: cs.map Char.toLower)

/-- EloTrackerApp._standardize_role (botc_elo.py lines 498-515): split on
underscores, capitalize the head of each non-empty segment and lower-case
its tail, rejoin with underscores. -/
def standardize_role (role_part : String) : String :=
  if role_part = "" then ""
  else String.intercalate "_" ((role_part.splitOn "_").map
    (fun seg => if seg = "" then seg else capitalizeFirst seg))

/-- One parsed line of parse_team_input: name, all roles, final role, and
the optional initial-team hint. -/
structure ParsedPlayer where
  name : String
  roles : List String
  role : String
  initial_team : Option String
deriving DecidableEq

/-- EloTrackerApp.parse_team_input (botc_elo.py lines 517-564), also used
verbatim by the edit window (lines 1066-1104): one player per non-blank
line, roles split on plus signs and standardized, an optional third token
whose part left of an arrow is kept capitalized as the initial team. -/
def parse_team_input (text : String) : List ParsedPlayer :=
  (text.trim.splitOn "\n").filterMap (fun line =>
    let line := line.trim
    if line = "" then none
    else
      match pySplitWs line with
      | [] => none
      | name :: rest =>
        let role_str := (rest.head?).getD ""
        let team_hint := (rest.drop 1).head?
        let raw_roles := if role_str = "" then [""] else role_str.splitOn "+"
        let roles := raw_roles.map standardize_role
        let final_role := (roles.getLast?).getD ""
        let initial_team := team_hint.map (fun th =>
          if 2 ≤ (th.splitOn "->").length then
            capitalizeFirst (((th.splitOn "->").head?).getD th)
          else capitalizeFirst th)
        some { name := name, roles := roles, role := final_role
               initial_team := initial_team })

/-- Team stamping at assembly time (submit_game lines 590-602 and
save_changes lines 1124-1134): set the final team and default a falsy
initial team (absent or empty) to it. -/
def stampEntry (p : ParsedPlayer) (team : String) : PlayerEntry :=
  { name := p.name
    team := team
    role := some p.role
    initial_team := some (match p.initial_team with
      | some it => if it = "" then team else it
      | none => team)
    roles := some p.roles }

/-- Validity of the two radio selections (submit_game line 572 and
save_changes line 1112). -/
def validSel (evil_sel winner_sel : Int) : Prop :=
  (evil_sel = 1 ∨ evil_sel = 2) ∧ (winner_sel = 1 ∨ winner_sel = 2)

instance (a b : Int) : Decidable (validSel a b) := by
  unfold validSel
  infer_instance

/-- The application state touched by the two mutating actions: the game
log, the players dict, and the id counter for the next game. -/
structure AppState where
  game_log : List Game
  players : PlayersMap
  next_game_id : Int

/-- EloTrackerApp.submit_game (botc_elo.py lines 566-628): reject with a
warning and return before any mutation unless both selections are valid;
otherwise stamp teams, append one new game record with the next id, and
rebuild all player state with recalc_all. -/
def submit_game (st : AppState) (team1_text team2_text : String)
    (evil_sel winner_sel : Int) (game_mode story_teller date_str : String) :
    Except String AppState :=
  let team1 := parse_team_input team1_text
  let team2 := parse_team_input team2_text
  if ¬ ((evil_sel = 1 ∨ evil_sel = 2) ∧ (winner_sel = 1 ∨ winner_sel = 2)) then
    Except.error "Please select which team is Evil and which team won."
  else
    let team1_team := if evil_sel = 1 then "Evil" else "Good"
    let team2_team := if evil_sel = 1 then "Good" else "Evil"
    let winning_team := if winner_sel = 1 then team1_team else team2_team
    let players_in_game := team1.map (fun p => stampEntry p team1_team) ++
      team2.map (fun p => stampEntry p team2_team)
    let record : Game :=
      { game_id := st.next_game_id
        date := date_str
        players := players_in_game
        winning_team := winning_team
        game_mode := game_mode
        story_teller := story_teller }
    let log2 := st.game_log ++ [record]
    Except.ok
      { game_log := log2
        players := recalc_all st.players log2
        next_game_id := st.next_game_id + 1 }

/-- EditSingleGameWindow.save_changes (botc_elo.py lines 1106-1144): same
validation, then replace the players and outcome of the game with the
target id in place (id, date, game_mode and story_teller survive) and
rebuild all player state with recalc_all. -/
def save_changes (st : AppState) (target_game_id : Int)
    (team1_text team2_text : String) (evil_sel winner_sel : Int) :
    Except String AppState :=
  let team1 := parse_team_input team1_text
  let team2 := parse_team_input team2_text
  if ¬ ((evil_sel = 1 ∨ evil_sel = 2) ∧ (winner_sel = 1 ∨ winner_sel = 2)) then
    Except.error "Select which team is Evil and which won."
  else
    let team1_team := if evil_sel = 1 then "Evil" else "Good"
    let team2_team := if evil_sel = 1 then "Good" else "Evil"
    let winning_team := if winner_sel = 1 then team1_team else team2_team
    let players_in_game := team1.map (fun p => stampEntry p team1_team) ++
      team2.map (fun p => stampEntry p team2_team)
    let log2 := st.game_log.map (fun g =>
      if g.game_id = target_game_id then
        { g with players := players_in_game, winning_team := winning_team }
      else g)
    Except.ok { st with game_log := log2, players := recalc_all st.players log2 }

/-- Association-list lookup used for the analytics dicts. -/
def alookup {α : Type} (l : List (String × α)) (k : String) : Option α :=
  match l with
  | [] => none
  | (k2, v) :: rest => if k2 = k then some v else alookup rest k

/-- Effective role of a player entry in update_character_stats
(analytics.py line 435): p.get("role") or "" collapses a missing role to
the empty string. -/
def effRole (p : PlayerEntry) : String :=
  p.role.getD ""

/-- role_teams.setdefault(role, []).append(team) (analytics.py line 438):
append the team to the bucket of the role, creating the bucket at the end
of the dict when absent. -/
def setdefaultAppend (acc : List (String × List String)) (k t : String) :
    List (String × List String) :=
  match acc with
  | [] => [(k, [t])]
  | (k2, ts) :: rest =>
    if k2 = k then (k2, ts ++ [t]) :: rest
    else (k2, ts) :: setdefaultAppend rest k t

/-- Loop body building role_teams (analytics.py lines 434-438): skip an
empty role, otherwise append the team to the role's bucket. -/
def rtStep (acc : List (String × List String)) (p : PlayerEntry) :
    List (String × List String) :=
  let role := effRole p
  if role = "" then acc else setdefaultAppend acc role p.team

/-- Loop building role_teams (analytics.py lines 433-438): map each
non-empty role of the game to the list of teams of its holders. -/
def roleTeams (ps : List PlayerEntry) : List (String × List String) :=
  ps.foldl rtStep []

/-- Per-role char_stats update (analytics.py lines 440-445): one game
counted for the role, one win when the winning team is among the holders'
teams. -/
def bumpRole (winning : String) (cs : List (String × ℕ × ℕ))
    (rt : String × List String) : List (String × ℕ × ℕ) :=
  match cs with
  | [] => [(rt.1, 1, if winning ∈ rt.2 then 1 else 0)]
  | (k, gw) :: rest =>
    if k = rt.1 then (k, gw.1 + 1, gw.2 + (if winning ∈ rt.2 then 1 else 0)) :: rest
    else (k, gw) :: bumpRole winning rest rt

/-- Processing of one game by update_character_stats (lines 430-445). -/
def processGameChar (cs : List (String × ℕ × ℕ)) (g : Game) : List (String × ℕ × ℕ) :=
  (roleTeams g.players).foldl (bumpRole g.winning_team) cs

/-- The whole char_stats aggregation of update_character_stats over the
selected list of games. -/
def charStats (games : List Game) : List (String × ℕ × ℕ) :=
  games.foldl processGameChar []

/-- Teams of the holders of a role within a game, in player order. -/
def teamsOf (r : String) (ps : List PlayerEntry) : List String :=
  (ps.filter (fun p => effRole p == r)).map (fun p => p.team)

/-- Some player of the game holds the role (with the empty-string collapse
of a missing role). -/
def matchHasRole (r : String) (g : Game) : Prop :=
  ∃ p ∈ g.players, effRole p = r

/-- Some holder of the role in the game is on the winning team. -/
def matchRoleWon (r : String) (g : Game) : Prop :=
  ∃ p ∈ g.players, effRole p = r ∧ p.team = g.winning_team

theorem alookup_setdefaultAppend_self (acc : List (String × List String)) (k t : String) :
    alookup (setdefaultAppend acc k t) k = some ((alookup acc k).getD [] ++ [t]) := by
  induction acc with
  | nil => simp [setdefaultAppend, alookup]
  | cons kv rest ih =>
    obtain ⟨k2, ts⟩ := kv
    by_cases h : k2 = k
    · simp [setdefaultAppend, alookup, h]
    · simp [setdefaultAppend, alookup, h, ih]

theorem alookup_setdefaultAppend_other (acc : List (String × List String)) (k t j : String)
    (hj : j ≠ k) : alookup (setdefaultAppend acc k t) j = alookup acc j := by
  induction acc with
  | nil => simp [setdefaultAppend, alookup, Ne.symm hj]
  | cons kv rest ih =>
    obtain ⟨k2, ts⟩ := kv
    by_cases h : k2 = k
    · subst h
      simp [setdefaultAppend, alookup, Ne.symm hj]
    · by_cases h2 : k2 = j <;> simp [setdefaultAppend, alookup, h, h2, ih, hj]

theorem setdefaultAppend_keys_subset (acc : List (String × List String)) (k t j : String)
    (hj : j ∈ (setdefaultAppend acc k t).map (fun kv => kv.1)) :
    j ∈ acc.map (fun kv => kv.1) ∨ j = k := by
  induction acc with
  | nil => simpa [setdefaultAppend] using hj
  | cons kv rest ih =>
    obtain ⟨k2, ts⟩ := kv
    by_cases h : k2 = k
    · rw [show setdefaultAppend ((k2, ts) :: rest) k t = (k2, ts ++ [t]) :: rest from by
        simp [setdefaultAppend, h]] at hj
      simp only [List.map_cons, List.mem_cons] at hj ⊢
      tauto
    · rw [show setdefaultAppend ((k2, ts) :: rest) k t =
          (k2, ts) :: setdefaultAppend rest k t from by simp [setdefaultAppend, h]] at hj
      simp only [List.map_cons, List.mem_cons] at hj ⊢
      rcases hj with h1 | h1
      · tauto
      · rcases ih h1 with h2 | h2 <;> tauto

theorem setdefaultAppend_keys_nodup (acc : List (String × List String)) (k t : String)
    (hnd : (acc.map (fun kv => kv.1)).Nodup) :
    ((setdefaultAppend acc k t).map (fun kv => kv.1)).Nodup := by
  induction acc with
  | nil => simp [setdefaultAppend]
  | cons kv rest ih =>
    obtain ⟨k2, ts⟩ := kv
    simp only [List.map_cons, List.nodup_cons] at hnd
    by_cases h : k2 = k
    · rw [show setdefaultAppend ((k2, ts) :: rest) k t = (k2, ts ++ [t]) :: rest from by
        simp [setdefaultAppend, h]]
      simp only [List.map_cons, List.nodup_cons]
      exact hnd
    · rw [show setdefaultAppend ((k2, ts) :: rest) k t =
          (k2, ts) :: setdefaultAppend rest k t from by simp [setdefaultAppend, h]]
      simp only [List.map_cons, List.nodup_cons]
      refine ⟨fun hmem => ?_, ih hnd.2⟩
      rcases setdefaultAppend_keys_subset rest k t k2 hmem with h1 | h1
      · exact hnd.1 h1
      · exact h h1

theorem rtStep_skip (acc : List (String × List String)) (p : PlayerEntry)
    (h : effRole p = "") : rtStep acc p = acc := by
  simp [rtStep, h]

theorem rtStep_app (acc : List (String × List String)) (p : PlayerEntry)
    (h : ¬ effRole p = "") : rtStep acc p = setdefaultAppend acc (effRole p) p.team := by
  simp [rtStep, h]

theorem teamsOf_cons_of_neg (r : String) (p : PlayerEntry) (rest : List PlayerEntry)
    (h : ¬ effRole p = r) : teamsOf r (p :: rest) = teamsOf r rest := by
  have h2 : ¬ ((fun q : PlayerEntry => effRole q == r) p = true) := by simpa using h
  unfold teamsOf
  rw [@List.filter_cons_of_neg _ (fun q : PlayerEntry => effRole q == r) p rest h2]

theorem teamsOf_cons_of_pos (r : String) (p : PlayerEntry) (rest : List PlayerEntry)
    (h : effRole p = r) : teamsOf r (p :: rest) = p.team :: teamsOf r rest := by
  have h2 : (fun q : PlayerEntry => effRole q == r) p = true := by simpa using h
  unfold teamsOf
  rw [@List.filter_cons_of_pos _ (fun q : PlayerEntry => effRole q == r) p rest h2,
    List.map_cons]

theorem roleTeams_fold (r : String) (hr : r ≠ "") (ps : List PlayerEntry) :
    ∀ acc, alookup (ps.foldl rtStep acc) r =
      match alookup acc r with
      | some ts => some (ts ++ teamsOf r ps)
      | none => if teamsOf r ps = [] then none else some (teamsOf r ps) := by
  induction ps with
  | nil =>
    intro acc
    cases h : alookup acc r <;> simp [teamsOf, h]
  | cons p rest ih =>
    intro acc
    simp only [List.foldl_cons]
    by_cases hpr : effRole p = r
    · have hre : ¬ effRole p = "" := by rw [hpr]; exact hr
      rw [rtStep_app acc p hre, hpr, ih _, alookup_setdefaultAppend_self,
        teamsOf_cons_of_pos r p rest hpr]
      cases h : alookup acc r <;> simp [h]
    · by_cases hre : effRole p = ""
      · rw [rtStep_skip acc p hre, ih acc, teamsOf_cons_of_neg r p rest hpr]
      · rw [rtStep_app acc p hre, ih _,
          alookup_setdefaultAppend_other _ _ _ _ (fun h => hpr h.symm),
          teamsOf_cons_of_neg r p rest hpr]

theorem alookup_roleTeams (ps : List PlayerEntry) (r : String) (hr : r ≠ "") :
    alookup (roleTeams ps) r =
      if teamsOf r ps = [] then none else some (teamsOf r ps) := by
  unfold roleTeams
  rw [roleTeams_fold r hr ps []]
  rfl

theorem roleTeams_keys_nodup (ps : List PlayerEntry) :
    ((roleTeams ps).map (fun kv => kv.1)).Nodup := by
  have hgen : ∀ acc, ((acc : List (String × List String)).map (fun kv => kv.1)).Nodup →
      ((ps.foldl rtStep acc).map (fun kv => kv.1)).Nodup := by
    induction ps with
    | nil => intro acc h; simpa using h
    | cons p rest ih =>
      intro acc h
      simp only [List.foldl_cons]
      by_cases hre : effRole p = ""
      · rw [rtStep_skip acc p hre]
        exact ih acc h
      · rw [rtStep_app acc p hre]
        exact ih _ (setdefaultAppend_keys_nodup acc _ _ h)
  exact hgen [] (by simp)

theorem alookup_bumpRole_self (w : String) (cs : List (String × ℕ × ℕ))
    (rt : String × List String) :
    alookup (bumpRole w cs rt) rt.1 =
      some (((alookup cs rt.1).getD (0, 0)).1 + 1,
            ((alookup cs rt.1).getD (0, 0)).2 + (if w ∈ rt.2 then 1 else 0)) := by
  induction cs with
  | nil => simp [bumpRole, alookup]
  | cons kv rest ih =>
    obtain ⟨k, gw⟩ := kv
    by_cases h : k = rt.1
    · simp [bumpRole, alookup, h]
    · simp [bumpRole, alookup, h, ih]

theorem alookup_bumpRole_other (w : String) (cs : List (String × ℕ × ℕ))
    (rt : String × List String) (j : String) (hj : j ≠ rt.1) :
    alookup (bumpRole w cs rt) j = alookup cs j := by
  induction cs with
  | nil => simp [bumpRole, alookup, Ne.symm hj]
  | cons kv rest ih =>
    obtain ⟨k, gw⟩ := kv
    by_cases h : k = rt.1
    · subst h
      simp [bumpRole, alookup, Ne.symm hj]
    · by_cases h2 : k = j <;> simp [bumpRole, alookup, h, h2, ih, hj]

theorem foldl_bump_not_mem (w : String) (items : List (String × List String)) (j : String)
    (hx : j ∉ items.map (fun kv => kv.1)) :
    ∀ cs, alookup (items.foldl (bumpRole w) cs) j = alookup cs j := by
  induction items with
  | nil => intro cs; rfl
  | cons rt rest ih =>
    intro cs
    simp only [List.map_cons, List.mem_cons] at hx
    push_neg at hx
    simp only [List.foldl_cons]
    rw [ih hx.2, alookup_bumpRole_other _ _ _ _ hx.1]

theorem foldl_bump_lookup (w r : String) (items : List (String × List String))
    (hnd : (items.map (fun kv => kv.1)).Nodup) :
    ∀ cs, alookup (items.foldl (bumpRole w) cs) r =
      match alookup items r with
      | some ts => some (((alookup cs r).getD (0, 0)).1 + 1,
                         ((alookup cs r).getD (0, 0)).2 + (if w ∈ ts then 1 else 0))
      | none => alookup cs r := by
  induction items with
  | nil => intro cs; rfl
  | cons rt rest ih =>
    intro cs
    obtain ⟨k, ts⟩ := rt
    simp only [List.map_cons, List.nodup_cons] at hnd
    simp only [List.foldl_cons]
    by_cases hk : k = r
    · subst hk
      rw [foldl_bump_not_mem w rest k hnd.1,
        alookup_bumpRole_self w cs (k, ts)]
      simp [alookup]
    · rw [ih hnd.2]
      have hcs : alookup (bumpRole w cs (k, ts)) r = alookup cs r :=
        alookup_bumpRole_other w cs (k, ts) r (fun h => hk h.symm)
      rw [hcs,
        show alookup ((k, ts) :: rest) r = alookup rest r from by simp [alookup, hk]]

instance (r : String) (g : Game) : Decidable (matchHasRole r g) := by
  unfold matchHasRole
  exact List.decidableBEx _ g.players

instance (r : String) (g : Game) : Decidable (matchRoleWon r g) := by
  unfold matchRoleWon
  exact List.decidableBEx _ g.players

theorem teamsOf_eq_nil_iff (r : String) (ps : List PlayerEntry) :
    teamsOf r ps = [] ↔ ¬ ∃ p ∈ ps, effRole p = r := by
  unfold teamsOf
  rw [List.map_eq_nil_iff, List.filter_eq_nil_iff]
  simp

theorem mem_teamsOf (w r : String) (ps : List PlayerEntry) :
    w ∈ teamsOf r ps ↔ ∃ p ∈ ps, effRole p = r ∧ p.team = w := by
  unfold teamsOf
  simp only [List.mem_map, List.mem_filter, beq_iff_eq]
  constructor
  · rintro ⟨p, ⟨hp, he⟩, ht⟩
    exact ⟨p, hp, he, ht⟩
  · rintro ⟨p, hp, he, ht⟩
    exact ⟨p, ⟨hp, he⟩, ht⟩

theorem matchHasRole_iff (r : String) (g : Game) :
    matchHasRole r g ↔ ¬ teamsOf r g.players = [] := by
  rw [teamsOf_eq_nil_iff, not_not]
  rfl

theorem matchRoleWon_iff (r : String) (g : Game) :
    matchRoleWon r g ↔ g.winning_team ∈ teamsOf r g.players := by
  rw [mem_teamsOf]
  rfl

theorem matchRoleWon_imp_has (r : String) (g : Game) (h : matchRoleWon r g) :
    matchHasRole r g := by
  obtain ⟨p, hp, h1, h2⟩ := h
  exact ⟨p, hp, h1⟩

theorem processGameChar_lookup (cs : List (String × ℕ × ℕ)) (g : Game) (r : String)
    (hr : r ≠ "") :
    alookup (processGameChar cs g) r =
      if teamsOf r g.players = [] then alookup cs r
      else some (((alookup cs r).getD (0, 0)).1 + 1,
                 ((alookup cs r).getD (0, 0)).2 +
                   (if g.winning_team ∈ teamsOf r g.players then 1 else 0)) := by
  unfold processGameChar
  rw [foldl_bump_lookup g.winning_team r (roleTeams g.players) (roleTeams_keys_nodup _) cs,
    alookup_roleTeams g.players r hr]
  by_cases h : teamsOf r g.players = [] <;> simp [h]

theorem charStats_fold (r : String) (hr : r ≠ "") (games : List Game) :
    ∀ cs, alookup (games.foldl processGameChar cs) r =
      if games.countP (fun g => decide (matchHasRole r g)) = 0 then alookup cs r
      else some (((alookup cs r).getD (0, 0)).1 +
          games.countP (fun g => decide (matchHasRole r g)),
        ((alookup cs r).getD (0, 0)).2 +
          games.countP (fun g => decide (matchRoleWon r g))) := by
  induction games with
  | nil => intro cs; simp
  | cons g gs ih =>
    intro cs
    simp only [List.foldl_cons, List.countP_cons]
    have hif1 : (if true = true then (1 : ℕ) else 0) = 1 := rfl
    have hif0 : (if false = true then (1 : ℕ) else 0) = 0 := rfl
    rw [ih (processGameChar cs g), processGameChar_lookup cs g r hr]
    have hmono : gs.countP (fun g => decide (matchRoleWon r g)) ≤
        gs.countP (fun g => decide (matchHasRole r g)) := by
      refine List.countP_mono_left (fun g2 _ h2 => ?_)
      simp only [decide_eq_true_eq] at h2 ⊢
      exact matchRoleWon_imp_has r g2 h2
    by_cases hhas : matchHasRole r g
    · have h1 : ¬ teamsOf r g.players = [] := (matchHasRole_iff r g).mp hhas
      rw [if_neg h1]
      by_cases hwon : matchRoleWon r g
      · have h2 : g.winning_team ∈ teamsOf r g.players := (matchRoleWon_iff r g).mp hwon
        simp only [hhas, hwon, h2, decide_True, if_true, decide_eq_true_eq, hif1]
        by_cases hz : gs.countP (fun g => decide (matchHasRole r g)) = 0
        · have hw0 : gs.countP (fun g => decide (matchRoleWon r g)) = 0 := by omega
          simp only [hz, hw0]
          simp
        · rw [if_neg hz, if_neg (by omega)]
          simp only [Option.some_inj, Prod.mk.injEq, Option.getD_some]
          constructor <;> omega
      · have h2 : g.winning_team ∉ teamsOf r g.players :=
          fun hmem => hwon ((matchRoleWon_iff r g).mpr hmem)
        simp only [hhas, hwon, h2, decide_True, decide_False, if_true, if_false, hif1, hif0]
        by_cases hz : gs.countP (fun g => decide (matchHasRole r g)) = 0
        · have hw0 : gs.countP (fun g => decide (matchRoleWon r g)) = 0 := by omega
          simp only [hz, hw0]
          simp
        · rw [if_neg hz, if_neg (by omega)]
          simp only [Option.some_inj, Prod.mk.injEq, Option.getD_some]
          constructor <;> omega
    · have h1 : teamsOf r g.players = [] := by
        by_contra hc
        exact hhas ((matchHasRole_iff r g).mpr hc)
      have hwon : ¬ matchRoleWon r g := fun hw => hhas (matchRoleWon_imp_has r g hw)
      rw [if_pos h1]
      simp only [hhas, hwon, decide_False, if_false, hif0, Nat.add_zero]

/-- Entry of player A in the worked scenario game. -/
def entryA : PlayerEntry :=
  { name := "A", team := "Good", role := some "Washerwoman",
    initial_team := none, roles := none }

/-- Entry of player B in the worked scenario game. -/
def entryB : PlayerEntry :=
  { name := "B", team := "Evil", role := some "Imp",
    initial_team := none, roles := none }

/-- Worked scenario A game: players A (Good) and B (Evil), winner Good. -/
def gameA : Game :=
  { game_id := 1
    date := "2024-01-01 12:00:00"
    players := [entryA, entryB]
    winning_team := "Good"
    game_mode := "Trouble Brewing"
    story_teller := "" }

/-- First loop of get_rating_delta (botc_elo.py lines 463-469): walk the
rating history keeping the rating of each entry before start, stopping at
the first entry at or past start; acc is the running rating_before,
initially DEFAULT_RATING. -/
def findRatingBefore : List RatingEntry → Int → ℝ → ℝ
  | [], _, acc => acc
  | e :: rest, start, acc =>
    if e.game_number < start then findRatingBefore rest start e.rating else acc

/-- Second loop of get_rating_delta (lines 473-480): look for an entry at
exactly end_game, stopping empty-handed at the first entry past it. -/
def findRatingAtEnd : List RatingEntry → Int → Option ℝ
  | [], _ => none
  | e :: rest, endg =>
    if e.game_number = endg then some e.rating
    else if endg < e.game_number then none
    else findRatingAtEnd rest endg

/-- Third loop of get_rating_delta (lines 483-487): scan the reversed
history for the first entry at or before end_game. -/
def findRatingLE (hist : List RatingEntry) (endg : Int) : Option ℝ :=
  (hist.reverse.find? (fun e => decide (e.game_number ≤ endg))).map
    (fun e => e.rating)

/-- Method EloTrackerApp.get_rating_delta (botc_elo.py lines 449-493). -/
def get_rating_delta (p : Player) (start_game end_game : Option Int) : Option ℝ :=
  match start_game, end_game with
  | some s, some e =>
    if p.rating_history.isEmpty then none
    else
      let rating_before := findRatingBefore p.rating_history s DEFAULT_RATING
      let rating_after :=
        match findRatingAtEnd p.rating_history e with
        | some r => some r
        | none => findRatingLE p.rating_history e
      match rating_after with
      | some r => some (r - rating_before)
      | none => none
  | _, _ => none

/-- Stated from the claim wording: the rating of the most recent snapshot
with match_number strictly below start, or DEFAULT_RATING if none exists. -/
def ratingBeforeSpec (hist : List RatingEntry) (s : Int) : ℝ :=
  match (hist.filter (fun e => decide (e.game_number < s))).getLast? with
  | some e => e.rating
  | none => DEFAULT_RATING

/-- Stated from the claim wording: the snapshot at exactly end if present,
else the nearest snapshot at or before end; none when no snapshot is at or
before end. -/
def ratingAfterSpec (hist : List RatingEntry) (endg : Int) : Option ℝ :=
  match hist.find? (fun e => decide (e.game_number = endg)) with
  | some e => some e.rating
  | none =>
    ((hist.filter (fun e => decide (e.game_number ≤ endg))).getLast?).map
      (fun e => e.rating)

/-- Stated from the claim wording: rating_after at end minus rating_before
at start, undefined when rating_after is. -/
def ratingDeltaSpec (p : Player) (s endg : Int) : Option ℝ :=
  (ratingAfterSpec p.rating_history endg).map
    (fun r => r - ratingBeforeSpec p.rating_history s)

theorem findRatingBefore_spec (hist : List RatingEntry) (s : Int) (acc : ℝ)
    (hsorted : List.Pairwise (fun a b => a.game_number < b.game_number) hist) :
    findRatingBefore hist s acc =
      match (hist.filter (fun e => decide (e.game_number < s))).getLast? with
      | some e => e.rating
      | none => acc := by
  induction hist generalizing acc with
  | nil => simp [findRatingBefore]
  | cons e rest ih =>
    rcases List.pairwise_cons.mp hsorted with ⟨hhead, htail⟩
    by_cases h : e.game_number < s
    · rw [findRatingBefore, if_pos h, ih _ htail,
        List.filter_cons_of_pos (by simp [h]), List.getLast?_cons]
      cases hfr : (rest.filter (fun x => decide (x.game_number < s))).getLast? <;>
        simp [hfr]
    · rw [findRatingBefore, if_neg h]
      have hnil : rest.filter (fun x => decide (x.game_number < s)) = [] := by
        rw [List.filter_eq_nil_iff]
        intro x hx
        have := hhead x hx
        simp only [decide_eq_true_eq]
        omega
      rw [List.filter_cons_of_neg (by simp [h]), hnil]
      simp

theorem findRatingAtEnd_spec (hist : List RatingEntry) (endg : Int)
    (hsorted : List.Pairwise (fun a b => a.game_number < b.game_number) hist) :
    findRatingAtEnd hist endg =
      (hist.find? (fun e => decide (e.game_number = endg))).map
        (fun e => e.rating) := by
  induction hist with
  | nil => simp [findRatingAtEnd]
  | cons e rest ih =>
    rcases List.pairwise_cons.mp hsorted with ⟨hhead, htail⟩
    by_cases h1 : e.game_number = endg
    · simp [findRatingAtEnd, h1]
    · by_cases h2 : endg < e.game_number
      · have hnone : rest.find? (fun x => decide (x.game_number = endg)) = none := by
          rw [List.find?_eq_none]
          intro x hx
          have := hhead x hx
          simp only [decide_eq_true_eq]
          omega
        simp [findRatingAtEnd, h1, h2, hnone]
      · simp [findRatingAtEnd, h1, h2, ih htail]

theorem reverse_find_eq_filter_getLast (l : List RatingEntry)
    (p : RatingEntry → Bool) :
    l.reverse.find? p = (l.filter p).getLast? := by
  induction l with
  | nil => simp
  | cons e rest ih =>
    rw [List.reverse_cons, List.find?_append, ih]
    by_cases h : p e
    · rw [List.filter_cons_of_pos h, List.getLast?_cons]
      cases hfr : (rest.filter p).getLast? <;> simp [hfr, List.find?, h]
    · rw [List.filter_cons_of_neg (by simpa using h)]
      cases hfr : (rest.filter p).getLast? <;> simp [hfr, List.find?, h]

/-- Counter invariant of the spec: games as Good plus games as Evil equals
games overall, for every player of the map. -/
def counterInv (m : PlayersMap) : Prop :=
  ∀ np ∈ m, np.2.games_good + np.2.games_evil = np.2.games_overall

theorem record_game_counterInv (p : Player) (gn : Int) (d t r : String) (w : Bool)
    (rb ra : ℝ) (it : Option String) (rs : Option (List String))
    (hp : p.games_good + p.games_evil = p.games_overall)
    (ht : t = "Good" ∨ t = "Evil") :
    (p.record_game gn d t r w rb ra it rs).games_good +
      (p.record_game gn d t r w rb ra it rs).games_evil =
      (p.record_game gn d t r w rb ra it rs).games_overall := by
  have hne : ¬ (("Evil" : String) = "Good") := by decide
  rcases ht with h | h <;> subst h <;>
    simp [Player.record_game, hne] <;> omega

theorem pmUpdate_counterInv (m : PlayersMap) (k : String) (f : Player → Player)
    (hm : counterInv m)
    (hf : ∀ p, p.games_good + p.games_evil = p.games_overall →
      (f p).games_good + (f p).games_evil = (f p).games_overall) :
    counterInv (pmUpdate m k f) := by
  induction m with
  | nil => intro np hnp; cases hnp
  | cons nq rest ih =>
    obtain ⟨n, p⟩ := nq
    intro np hnp
    unfold pmUpdate at hnp
    by_cases h : n = k
    · rw [if_pos h] at hnp
      rcases List.mem_cons.mp hnp with rfl | htail
      · exact hf p (hm (n, p) (List.mem_cons_self _ _))
      · exact hm np (List.mem_cons_of_mem _ htail)
    · rw [if_neg h] at hnp
      rcases List.mem_cons.mp hnp with rfl | htail
      · exact hm (n, p) (List.mem_cons_self _ _)
      · exact ih (fun x hx => hm x (List.mem_cons_of_mem _ hx)) np htail

theorem ensure_counterInv (ps : List PlayerEntry) (m : PlayersMap)
    (hm : counterInv m) : counterInv (ensurePlayers m ps) := by
  induction ps generalizing m with
  | nil => simpa [ensurePlayers] using hm
  | cons e rest ih =>
    simp only [ensurePlayers, List.foldl_cons] at ih ⊢
    refine ih _ ?_
    by_cases hl : (pmLookup m e.name).isNone
    · rw [if_pos hl]
      intro np hnp
      rcases List.mem_append.mp hnp with hold | hnew
      · exact hm np hold
      · rcases List.mem_singleton.mp hnew with rfl
        simp [Player.new]
    · rwa [if_neg hl]

theorem processEntry_counterInv (m : PlayersMap) (g : Game) (acc : PlayersMap)
    (e : PlayerEntry) (hacc : counterInv acc)
    (ht : e.team = "Good" ∨ e.team = "Evil") :
    counterInv (processEntry m g acc e) := by
  unfold processEntry
  refine pmUpdate_counterInv acc e.name _ hacc (fun p hp => ?_)
  refine record_game_counterInv _ _ _ _ _ _ _ _ _ _ ?_ ht
  simpa using hp

theorem foldl_processEntry_counterInv (m : PlayersMap) (g : Game)
    (l : List PlayerEntry) (acc : PlayersMap) (hacc : counterInv acc)
    (hteams : ∀ e ∈ l, e.team = "Good" ∨ e.team = "Evil") :
    counterInv (l.foldl (processEntry m g) acc) := by
  induction l generalizing acc with
  | nil => simpa using hacc
  | cons e rest ih =>
    simp only [List.foldl_cons]
    exact ih _ (processEntry_counterInv m g acc e hacc (hteams e (List.mem_cons_self _ _)))
      (fun x hx => hteams x (List.mem_cons_of_mem _ hx))

theorem processGame_counterInv (m : PlayersMap) (g : Game) (hm : counterInv m)
    (hg : ∀ e ∈ g.players, e.team = "Good" ∨ e.team = "Evil") :
    counterInv (processGame m g) := by
  unfold processGame
  exact foldl_processEntry_counterInv m g g.players _
    (ensure_counterInv g.players m hm) hg

theorem foldl_processGame_counterInv (gs : List Game) (acc : PlayersMap)
    (hacc : counterInv acc)
    (hg : ∀ g ∈ gs, ∀ e ∈ g.players, e.team = "Good" ∨ e.team = "Evil") :
    counterInv (gs.foldl processGame acc) := by
  induction gs generalizing acc with
  | nil => simpa using hacc
  | cons g rest ih =>
    simp only [List.foldl_cons]
    exact ih _ (processGame_counterInv acc g hacc (hg g (List.mem_cons_self _ _)))
      (fun x hx => hg x (List.mem_cons_of_mem _ hx))

/-- One row of the players table (the semantic values behind the Treeview
row of refresh_player_table; display formatting such as round(.,1) and the
N/A string is presentation only). -/
structure LeaderboardRow where
  rank : ℕ
  name : String
  rating : ℝ
  delta : Option ℝ
  overall_win_pct : Option ℝ
  good_win_pct : Option ℝ
  evil_win_pct : Option ℝ
  games : ℕ

/-- Sorting of refresh_player_table line 640-642: players sorted by
current rating, highest first; Python sorted is stable, as is mergeSort. -/
def sortPlayersDesc (m : PlayersMap) : PlayersMap :=
  m.mergeSort (fun a b => decide (b.2.current_rating ≤ a.2.current_rating))

/-- Loop body of refresh_player_table (botc_elo.py lines 640-688): read the
latest snapshot percentages, skip players with fewer than 5 games, emit a
row carrying the running rank and advance it. -/
def refreshStep (start_game end_game : Option Int)
    (acc : List LeaderboardRow × ℕ) (np : String × Player) : List LeaderboardRow × ℕ :=
  let p := np.2
  let overall := match p.rating_history.getLast? with
    | some l => l.overall_win_pct
    | none => none
  let good := match p.rating_history.getLast? with
    | some l => l.good_win_pct
    | none => none
  let evil := match p.rating_history.getLast? with
    | some l => l.evil_win_pct
    | none => none
  let games_played := p.games_overall
  if games_played < 5 then acc
  else
    (acc.1 ++
      [{ rank := acc.2
         name := np.1
         rating := p.current_rating
         delta := get_rating_delta p start_game end_game
         overall_win_pct := overall
         good_win_pct := good
         evil_win_pct := evil
         games := games_played }], acc.2 + 1)

/-- Method EloTrackerApp.refresh_player_table (botc_elo.py lines 630-688):
fold the row-emitting loop over the rating-sorted players, rank starting
at 1. -/
def refresh_player_table (m : PlayersMap) (start_game end_game : Option Int) :
    List LeaderboardRow :=
  ((sortPlayersDesc m).foldl (refreshStep start_game end_game) ([], 1)).1

/-- Stated from the claim wording: the row a player contributes, carrying
the latest snapshot percentages and the games_overall count. -/
def rowOf (rank : ℕ) (np : String × Player) (start_game end_game : Option Int) :
    LeaderboardRow :=
  { rank := rank
    name := np.1
    rating := np.2.current_rating
    delta := get_rating_delta np.2 start_game end_game
    overall_win_pct := match np.2.rating_history.getLast? with
      | some l => l.overall_win_pct
      | none => none
    good_win_pct := match np.2.rating_history.getLast? with
      | some l => l.good_win_pct
      | none => none
    evil_win_pct := match np.2.rating_history.getLast? with
      | some l => l.evil_win_pct
      | none => none
    games := np.2.games_overall }

theorem refresh_fold_spec (s e : Option Int) (l : List (String × Player)) :
    ∀ (rows : List LeaderboardRow) (r : ℕ),
    l.foldl (refreshStep s e) (rows, r) =
      (rows ++ (List.enumFrom r (l.filter
          (fun np => decide (5 ≤ np.2.games_overall)))).map
        (fun ie => rowOf ie.1 ie.2 s e),
       r + (l.filter (fun np => decide (5 ≤ np.2.games_overall))).length) := by
  induction l with
  | nil => intro rows r; simp
  | cons np rest ih =>
    intro rows r
    simp only [List.foldl_cons]
    by_cases h : np.2.games_overall < 5
    · have hpred : (decide (5 ≤ np.2.games_overall)) = false := by
        simp only [decide_eq_false_iff_not]
        omega
      have hstep : refreshStep s e (rows, r) np = (rows, r) := by
        simp only [refreshStep]
        rw [if_pos h]
      rw [hstep, ih, List.filter_cons_of_neg (by simp [hpred])]
    · have hpred : (decide (5 ≤ np.2.games_overall)) = true := by
        simp only [decide_eq_true_eq]
        omega
      have hstep : refreshStep s e (rows, r) np = (rows ++ [rowOf r np s e], r + 1) := by
        simp only [refreshStep, rowOf]
        rw [if_neg h]
      rw [hstep, ih, List.filter_cons_of_pos (by simp [hpred])]
      simp only [List.enumFrom, List.map_cons, Prod.mk.injEq]
      constructor
      · rw [List.append_assoc]
        rfl
      · simp only [List.length_cons]
        omega

theorem enumFrom_map_snd_fst (l : List (String × Player)) :
    ∀ n, (List.enumFrom n l).map (fun ie => ie.2.1) = l.map (fun np => np.1) := by
  induction l with
  | nil => intro n; rfl
  | cons np rest ih => intro n; simp [List.enumFrom, ih]

/-- Well-formedness of the players dict: each value's name field equals
its key (always true for maps built by the application). -/
def nameConsistent (m : PlayersMap) : Prop :=
  ∀ np ∈ m, np.2.name = np.1

/-- A player name occurs somewhere in a match history. -/
def occursIn (log : List Game) (n : String) : Prop :=
  ∃ g ∈ log, ∃ e ∈ g.players, e.name = n

/-- Relation between a replay state that started from a stale players dict
and one that started empty: every name is either mapped identically, or is
a stale reset entry on the left and absent on the right. -/
def lookupRel (m1 m2 : PlayersMap) : Prop :=
  ∀ n, pmLookup m1 n = pmLookup m2 n ∨
    (pmLookup m1 n = some (Player.new n) ∧ pmLookup m2 n = none)

theorem resetPlayer_eq_new (p : Player) : resetPlayer p = Player.new p.name := rfl

theorem pmLookup_map_reset (m : PlayersMap) (k : String) :
    pmLookup (m.map (fun np => (np.1, resetPlayer np.2))) k =
      (pmLookup m k).map resetPlayer := by
  induction m with
  | nil => simp [pmLookup]
  | cons np rest ih =>
    by_cases h : np.1 = k
    · simp [pmLookup, h]
    · simp [pmLookup, h, ih]

theorem pmLookup_name (m : PlayersMap) (n : String) (p : Player)
    (hwf : nameConsistent m) (h : pmLookup m n = some p) : p.name = n := by
  induction m with
  | nil => simp [pmLookup] at h
  | cons np rest ih =>
    unfold pmLookup at h
    by_cases hk : np.1 = n
    · rw [if_pos hk] at h
      have hn := hwf np (List.mem_cons_self _ _)
      rw [Option.some_inj] at h
      rw [← h, hn, hk]
    · rw [if_neg hk] at h
      exact ih (fun x hx => hwf x (List.mem_cons_of_mem _ hx)) h

/-- Pointwise characterization of ensurePlayers: an existing mapping is
kept; an absent name is freshly created exactly when it appears among the
entries. -/
theorem ensure_lookup (ps : List PlayerEntry) (m : PlayersMap) (n : String) :
    pmLookup (ensurePlayers m ps) n =
      match pmLookup m n with
      | some p => some p
      | none => if ps.any (fun e => e.name == n) then some (Player.new n) else none := by
  induction ps generalizing m with
  | nil => cases h : pmLookup m n <;> simp [ensurePlayers, h]
  | cons e rest ih =>
    have hstep : ensurePlayers m (e :: rest) =
        ensurePlayers (if (pmLookup m e.name).isNone then
          m ++ [(e.name, Player.new e.name)] else m) rest := by
      simp [ensurePlayers]
    rw [hstep, ih]
    cases hm : pmLookup m n with
    | some p =>
      have hm2 : pmLookup (if (pmLookup m e.name).isNone then
          m ++ [(e.name, Player.new e.name)] else m) n = some p := by
        by_cases hl : (pmLookup m e.name).isNone
        · rw [if_pos hl, pmLookup_append, hm]
        · rw [if_neg hl]; exact hm
      rw [hm2]
    | none =>
      by_cases he : e.name = n
      · have hl : (pmLookup m e.name).isNone := by rw [he, hm]; rfl
        have hm2 : pmLookup (if (pmLookup m e.name).isNone then
            m ++ [(e.name, Player.new e.name)] else m) n = some (Player.new n) := by
          rw [if_pos hl, pmLookup_append, hm, he]
          simp [pmLookup]
        rw [hm2]
        simp [he]
      · have hm2 : pmLookup (if (pmLookup m e.name).isNone then
            m ++ [(e.name, Player.new e.name)] else m) n = none := by
          by_cases hl : (pmLookup m e.name).isNone
          · rw [if_pos hl, pmLookup_append, hm]
            simp [pmLookup, he]
          · rw [if_neg hl]; exact hm
        rw [hm2]
        have : (e.name == n) = false := by simp [he]
        simp [List.any_cons, this]

theorem team_average_eq (m1 m2 : PlayersMap) (tl : List PlayerEntry)
    (h : ∀ e ∈ tl, pmLookup m1 e.name = pmLookup m2 e.name) :
    team_average m1 tl = team_average m2 tl := by
  unfold team_average
  by_cases htl : tl = []
  · rw [if_pos htl, if_pos htl]
  · rw [if_neg htl, if_neg htl]
    congr 2
    exact List.map_congr_left (fun e he => by rw [h e he])

theorem entryDelta_eq (m1 m2 : PlayersMap) (g : Game)
    (h : ∀ e ∈ g.players, pmLookup (ensurePlayers m1 g.players) e.name =
      pmLookup (ensurePlayers m2 g.players) e.name) (e : PlayerEntry) :
    entryDelta m1 g e = entryDelta m2 g e := by
  have hgood : team_average (ensurePlayers m1 g.players) (teamGood g) =
      team_average (ensurePlayers m2 g.players) (teamGood g) :=
    team_average_eq _ _ _ (fun x hx => h x (List.mem_filter.mp hx).1)
  have hevil : team_average (ensurePlayers m1 g.players) (teamEvil g) =
      team_average (ensurePlayers m2 g.players) (teamEvil g) :=
    team_average_eq _ _ _ (fun x hx => h x (List.mem_filter.mp hx).1)
  unfold entryDelta expGoodOf expEvilOf expGoodOf
  rw [hgood, hevil]

theorem foldl_entries_rel (m1 m2 : PlayersMap) (g : Game)
    (hdelta : ∀ e, entryDelta m1 g e = entryDelta m2 g e) (l : List PlayerEntry) :
    ∀ acc1 acc2, lookupRel acc1 acc2 → (∀ e ∈ l, (pmLookup acc2 e.name).isSome) →
    lookupRel (l.foldl (processEntry m1 g) acc1) (l.foldl (processEntry m2 g) acc2) := by
  induction l with
  | nil => intro acc1 acc2 hrel _; simpa using hrel
  | cons e rest ih =>
    intro acc1 acc2 hrel hsome
    simp only [List.foldl_cons]
    have hse : (pmLookup acc2 e.name).isSome := hsome e (List.mem_cons_self _ _)
    have heq : pmLookup acc1 e.name = pmLookup acc2 e.name := by
      rcases hrel e.name with h | ⟨h1, h2⟩
      · exact h
      · rw [h2] at hse; simp at hse
    have hrel2 : lookupRel (processEntry m1 g acc1 e) (processEntry m2 g acc2 e) := by
      intro n
      by_cases hn : n = e.name
      · subst hn
        left
        unfold processEntry
        rw [pmLookup_update_self, pmLookup_update_self, heq, hdelta e]
      · unfold processEntry
        rw [pmLookup_update_other _ _ _ _ hn, pmLookup_update_other _ _ _ _ hn]
        exact hrel n
    refine ih _ _ hrel2 (fun x hx => ?_)
    exact processEntry_isSome m2 g acc2 e x.name (hsome x (List.mem_cons_of_mem _ hx))

theorem processGame_rel (m1 m2 : PlayersMap) (g : Game) (hrel : lookupRel m1 m2) :
    lookupRel (processGame m1 g) (processGame m2 g) := by
  have hens : ∀ e ∈ g.players, pmLookup (ensurePlayers m1 g.players) e.name =
      pmLookup (ensurePlayers m2 g.players) e.name := by
    intro e he
    rw [ensure_lookup, ensure_lookup]
    have hany : (g.players.any (fun x => x.name == e.name)) = true := by
      simp only [List.any_eq_true]
      exact ⟨e, he, by simp⟩
    rcases hrel e.name with h | ⟨h1, h2⟩
    · rw [h]
    · rw [h1, h2]
      simp [hany]
  have hrelens : lookupRel (ensurePlayers m1 g.players) (ensurePlayers m2 g.players) := by
    intro n
    rw [ensure_lookup, ensure_lookup]
    rcases hrel n with h | ⟨h1, h2⟩
    · left; rw [h]
    · rw [h1, h2]
      by_cases hany : (g.players.any (fun x => x.name == n)) = true
      · left; simp [hany]
      · right
        simp only [Bool.not_eq_true] at hany
        simp [hany]
  unfold processGame
  exact foldl_entries_rel m1 m2 g (entryDelta_eq m1 m2 g hens) g.players _ _ hrelens
    (fun e he => ensure_mem g.players m2 e he)

theorem foldl_games_rel (gs : List Game) :
    ∀ acc1 acc2, lookupRel acc1 acc2 →
    lookupRel (gs.foldl processGame acc1) (gs.foldl processGame acc2) := by
  induction gs with
  | nil => intro acc1 acc2 h; simpa using h
  | cons g rest ih =>
    intro acc1 acc2 h
    simp only [List.foldl_cons]
    exact ih _ _ (processGame_rel _ _ g h)

theorem foldl_processEntry_isSome (m : PlayersMap) (g : Game) (l : List PlayerEntry)
    (acc : PlayersMap) (j : String) (h : (pmLookup acc j).isSome) :
    (pmLookup (l.foldl (processEntry m g) acc) j).isSome := by
  induction l generalizing acc with
  | nil => simpa using h
  | cons e rest ih =>
    simp only [List.foldl_cons]
    exact ih _ (processEntry_isSome m g acc e j h)

theorem processGame_isSome_mono (m : PlayersMap) (g : Game) (j : String)
    (h : (pmLookup m j).isSome) : (pmLookup (processGame m g) j).isSome :=
  foldl_processEntry_isSome m g g.players _ j (ensure_mono g.players m j h)

theorem processGame_isSome_of_mem (m : PlayersMap) (g : Game) (e : PlayerEntry)
    (he : e ∈ g.players) : (pmLookup (processGame m g) e.name).isSome :=
  foldl_processEntry_isSome m g g.players _ e.name (ensure_mem g.players m e he)

theorem foldl_games_isSome_mono (gs : List Game) (acc : PlayersMap) (j : String)
    (h : (pmLookup acc j).isSome) : (pmLookup (gs.foldl processGame acc) j).isSome := by
  induction gs generalizing acc with
  | nil => simpa using h
  | cons g rest ih =>
    simp only [List.foldl_cons]
    exact ih _ (processGame_isSome_mono acc g j h)

theorem foldl_games_isSome_of_occurs (gs : List Game) (acc : PlayersMap) (n : String)
    (h : ∃ g ∈ gs, ∃ e ∈ g.players, e.name = n) :
    (pmLookup (gs.foldl processGame acc) n).isSome := by
  induction gs generalizing acc with
  | nil => simp at h
  | cons g rest ih =>
    simp only [List.foldl_cons]
    rcases h with ⟨g2, hg2, e, he, hname⟩
    rcases List.mem_cons.mp hg2 with rfl | htail
    · subst hname
      exact foldl_games_isSome_mono rest _ _ (processGame_isSome_of_mem acc g2 e he)
    · exact ih _ ⟨g2, htail, e, he, hname⟩

theorem ensure_lookup_not_mem (ps : List PlayerEntry) (m : PlayersMap) (n : String)
    (h : ∀ e ∈ ps, e.name ≠ n) :
    pmLookup (ensurePlayers m ps) n = pmLookup m n := by
  rw [ensure_lookup]
  cases hm : pmLookup m n with
  | some p => rfl
  | none =>
    by_cases hany : (ps.any (fun e => e.name == n)) = true
    · obtain ⟨e, he, heq⟩ := List.any_eq_true.mp hany
      exact absurd (by simpa using heq) (h e he)
    · simp only [Bool.not_eq_true] at hany
      simp [hany]

theorem foldl_entries_lookup_not_mem (m : PlayersMap) (g : Game) (l : List PlayerEntry)
    (n : String) (h : ∀ e ∈ l, e.name ≠ n) :
    ∀ acc, pmLookup (l.foldl (processEntry m g) acc) n = pmLookup acc n := by
  induction l with
  | nil => intro acc; rfl
  | cons e rest ih =>
    intro acc
    simp only [List.foldl_cons]
    rw [ih (fun x hx => h x (List.mem_cons_of_mem _ hx))]
    unfold processEntry
    exact pmLookup_update_other _ _ _ _ (fun hn => h e (List.mem_cons_self _ _) hn.symm)

theorem processGame_lookup_not_mem (m : PlayersMap) (g : Game) (n : String)
    (h : ∀ e ∈ g.players, e.name ≠ n) :
    pmLookup (processGame m g) n = pmLookup m n := by
  unfold processGame
  rw [foldl_entries_lookup_not_mem m g g.players n h]
  exact ensure_lookup_not_mem g.players m n h

theorem foldl_games_lookup_not_occurs (gs : List Game) (n : String)
    (h : ∀ g ∈ gs, ∀ e ∈ g.players, e.name ≠ n) :
    ∀ acc, pmLookup (gs.foldl processGame acc) n = pmLookup acc n := by
  induction gs with
  | nil => intro acc; rfl
  | cons g rest ih =>
    intro acc
    simp only [List.foldl_cons]
    rw [ih (fun x hx => h x (List.mem_cons_of_mem _ hx))]
    exact processGame_lookup_not_mem acc g n (h g (List.mem_cons_self _ _))

theorem recalc_all_nil (m : PlayersMap) :
    recalc_all m [] = m.map (fun np => (np.1, resetPlayer np.2)) := by
  unfold recalc_all sortGames
  rw [List.mergeSort_nil, List.foldl_nil]

theorem recalc_rel (P : PlayersMap) (rem : List Game) (hwf : nameConsistent P) :
    lookupRel (recalc_all P rem) (recalc_all [] rem) := by
  unfold recalc_all
  apply foldl_games_rel
  intro n
  rw [pmLookup_map_reset]
  cases hp : pmLookup P n with
  | none => left; simp [pmLookup]
  | some p =>
    right
    refine ⟨?_, by simp [pmLookup]⟩
    rw [show Option.map resetPlayer (some p) = some (resetPlayer p) from rfl,
      resetPlayer_eq_new, pmLookup_name P n p hwf hp]

/-- Concrete player with five recorded games used as a witness input. -/
def playerV : Player :=
  { name := "V"
    current_rating := 1530
    rating_history :=
      [ { game_number := 5, date := "d5", rating := 1530,
          overall_win_pct := some 60, good_win_pct := some ((2 : ℝ) / 3 * 100),
          evil_win_pct := some 50 } ]
    game_history := []
    games_overall := 5
    wins_overall := 3
    games_good := 3
    wins_good := 2
    games_evil := 2
    wins_evil := 1 }

/-- Games-overall counters of the players produced by replaying the single
worked-scenario game: one game each for A and B. -/
theorem recalcA_games_overall :
    (recalc_all [] [gameA]).map (fun np => np.2.games_overall) = [1, 1] := by
  have hEGb : ("Evil" == "Good") = false := by decide
  have hGGb : ("Good" == "Good") = true := by decide
  have hGEb : ("Good" == "Evil") = false := by decide
  have hEEb : ("Evil" == "Evil") = true := by decide
  have hEG : ¬ (("Evil" : String) = "Good") := by decide
  have hAB : ¬ (("A" : String) = "B") := by decide
  have hBA : ¬ (("B" : String) = "A") := by decide
  simp only [recalc_all, sortGames, List.mergeSort_singleton, List.foldl_cons, List.foldl_nil,
    List.map_nil, processGame, processEntry, ensurePlayers, entryDelta, team_average,
    teamGood, teamEvil, resultGood, resultEvil, expGoodOf, expEvilOf, pmLookup, pmUpdate,
    Player.new, Player.record_game, gameA, entryA, entryB, List.filter, List.map,
    DEFAULT_RATING, ELO_K_FACTOR, hEGb, hGGb, hGEb, hEEb, hEG, hAB, hBA]

/-- Concrete player with two rating snapshots used as a witness input. -/
def playerW : Player :=
  { name := "W"
    current_rating := 1520
    rating_history :=
      [ { game_number := 1, date := "d1", rating := 1510,
          overall_win_pct := some 100, good_win_pct := some 100, evil_win_pct := none },
        { game_number := 3, date := "d2", rating := 1520,
          overall_win_pct := some 100, good_win_pct := some 100, evil_win_pct := none } ]
    game_history := []
    games_overall := 2
    wins_overall := 2
    games_good := 2
    wins_good := 2
    games_evil := 0
    wins_evil := 0 }

/-- Good-team entry used for the team-uniform-delta check. -/
def eG1 : PlayerEntry :=
  { name := "Alice", team := "Good", role := some "Monk", initial_team := none, roles := none }

/-- Second Good-team entry used for the team-uniform-delta check. -/
def eG2 : PlayerEntry :=
  { name := "Bob", team := "Good", role := some "Chef", initial_team := none, roles := none }

/-- Evil-team entry used for the team-uniform-delta check. -/
def eE1 : PlayerEntry :=
  { name := "Carol", team := "Evil", role := some "Imp", initial_team := none, roles := none }

/-- Entry whose team string is neither Good nor Evil. -/
def eN : PlayerEntry :=
  { name := "Eve", team := "Traveller", role := some "Scapegoat",
    initial_team := none, roles := none }

/-- Concrete three-player game: two Good players, one Evil player, Evil wins. -/
def gameC4 : Game :=
  { game_id := 7
    date := "2024-02-02 18:00:00"
    players := [eG1, eG2, eE1]
    winning_team := "Evil"
    game_mode := "Trouble Brewing"
    story_teller := "Sam" }

/-- Concrete game with two players holding the same role (Legion), one on
each team, Evil winning. -/
def gameLegion : Game :=
  { game_id := 11
    date := "2024-04-04 20:00:00"
    players :=
      [ { name := "P1", team := "Good", role := some "Legion",
          initial_team := none, roles := none },
        { name := "P2", team := "Evil", role := some "Legion",
          initial_team := none, roles := none } ]
    winning_team := "Evil"
    game_mode := "Custom"
    story_teller := "" }

/-- Concrete game whose winning_team string is not exactly Good and which
contains a player on neither team string. -/
def gameC10 : Game :=
  { game_id := 9
    date := "2024-03-03 19:00:00"
    players := [eG1, eE1, eN]
    winning_team := "evil"
    game_mode := "Sects and Violets"
    story_teller := "" }

/-- Concrete empty application state used as a witness input. -/
def st0 : AppState :=
  { game_log := [], players := [], next_game_id := 1 }

end Botc

namespace BotcClaims

open Botc

/-- C5: for every match processed during replay the expected score of the
Good team is the logistic Elo expectation computed from the two team
averages, the Evil expectation is its complement, and the two sum to
exactly 1.0. -/
theorem C5_zero_sum_expectation (m : PlayersMap) (g : Game) :
    expGoodOf m g =
      1.0 / (1.0 + (10 : ℝ) ^
        ((team_average (ensurePlayers m g.players) (teamEvil g) -
          team_average (ensurePlayers m g.players) (teamGood g)) / 400)) ∧
    expGoodOf m g + expEvilOf m g = 1.0 := by
  constructor
  · rfl
  · unfold expEvilOf
    ring

/-- C3: replaying the single worked-scenario-A match from no prior history
gives both players a rating_before of exactly 1500, and produces rating
1516 with overall win percentage 100 for A and rating 1484 with overall
win percentage 0 for B. -/
theorem C3_worked_scenario_A :
    ((pmLookup (recalc_all [] [gameA]) "A").map (fun p => p.current_rating)) = some 1516 ∧
    ((pmLookup (recalc_all [] [gameA]) "A").map
      (fun p => p.rating_history.map (fun e => e.overall_win_pct))) = some [some 100] ∧
    ((pmLookup (recalc_all [] [gameA]) "A").map
      (fun p => p.game_history.map (fun r => r.rating_before))) = some [1500] ∧
    ((pmLookup (recalc_all [] [gameA]) "B").map (fun p => p.current_rating)) = some 1484 ∧
    ((pmLookup (recalc_all [] [gameA]) "B").map
      (fun p => p.rating_history.map (fun e => e.overall_win_pct))) = some [some 0] ∧
    ((pmLookup (recalc_all [] [gameA]) "B").map
      (fun p => p.game_history.map (fun r => r.rating_before))) = some [1500] := by
  have hEGb : ("Evil" == "Good") = false := by decide
  have hGGb : ("Good" == "Good") = true := by decide
  have hGEb : ("Good" == "Evil") = false := by decide
  have hEEb : ("Evil" == "Evil") = true := by decide
  have hEG : ¬ (("Evil" : String) = "Good") := by decide
  have hAB : ¬ (("A" : String) = "B") := by decide
  have hBA : ¬ (("B" : String) = "A") := by decide
  simp only [recalc_all, sortGames, List.mergeSort_singleton, List.foldl_cons, List.foldl_nil,
    List.map_nil, processGame, processEntry, ensurePlayers, entryDelta, team_average,
    teamGood, teamEvil, resultGood, resultEvil, expGoodOf, expEvilOf, pmLookup, pmUpdate,
    Player.new, Player.record_game, gameA, entryA, entryB, List.filter, List.map,
    DEFAULT_RATING, ELO_K_FACTOR, hEGb, hGGb, hGEb, hEEb, hEG, hAB, hBA]
  norm_num [expected_score_self, pmLookup, pmUpdate, Player.new, Player.record_game,
    DEFAULT_RATING, ELO_K_FACTOR, hEGb, hGGb, hGEb, hEEb, hEG, hAB, hBA]

/-- C4: within the processing of one match, any two player entries sharing
the same final team receive exactly the same rating delta, and the replay
really applies entryDelta to every entry: each entry gets a game-history
record for this game whose rating change equals its entryDelta. -/
theorem C4_team_uniform_delta (m : PlayersMap) (g : Game) :
    (∀ e1 ∈ g.players, ∀ e2 ∈ g.players, e1.team = e2.team →
      entryDelta m g e1 = entryDelta m g e2) ∧
    (∀ e ∈ g.players, ∃ pl, pmLookup (processGame m g) e.name = some pl ∧
      ∃ rec ∈ pl.game_history, rec.game_number = g.game_id ∧
        rec.rating_after - rec.rating_before = entryDelta m g e) := by
  refine ⟨fun e1 _ e2 _ h => ?_, processGame_delta_recorded m g⟩
  unfold entryDelta
  rw [h]

/-- Witness for C4 at a concrete three-player game. -/
theorem C4_team_uniform_delta_witness :
    entryDelta [] gameC4 eG1 = entryDelta [] gameC4 eG2 ∧
    (∃ pl, pmLookup (processGame [] gameC4) eG1.name = some pl ∧
      ∃ rec ∈ pl.game_history, rec.game_number = gameC4.game_id ∧
        rec.rating_after - rec.rating_before = entryDelta [] gameC4 eG1) :=
  ⟨(C4_team_uniform_delta [] gameC4).1 eG1 (by simp [gameC4]) eG2 (by simp [gameC4]) rfl,
   (C4_team_uniform_delta [] gameC4).2 eG1 (by simp [gameC4])⟩

/-- C10: replay decides teams and outcome by exact string comparison with
Good: any other winning_team value scores as an Evil win; any entry whose
team is not exactly Good gets the Evil-side delta, and an entry whose team
is neither Good nor Evil is excluded from both team lists (hence from both
averages) yet still has the Evil delta applied to its recorded rating. -/
theorem C10_exact_string_comparison (m : PlayersMap) (g : Game) (e : PlayerEntry) :
    (g.winning_team ≠ "Good" → resultGood g = 0 ∧ resultEvil g = 1) ∧
    (e.team ≠ "Good" → entryDelta m g e = ELO_K_FACTOR * (resultEvil g - expEvilOf m g)) ∧
    (e.team ≠ "Good" → e.team ≠ "Evil" → e ∉ teamGood g ∧ e ∉ teamEvil g) ∧
    (e ∈ g.players → e.team ≠ "Good" →
      ∃ pl, pmLookup (processGame m g) e.name = some pl ∧
        ∃ rec ∈ pl.game_history, rec.game_number = g.game_id ∧
          rec.rating_after - rec.rating_before =
            ELO_K_FACTOR * (resultEvil g - expEvilOf m g)) := by
  refine ⟨fun hw => ?_, fun ht => ?_, fun ht hv => ?_, fun he ht => ?_⟩
  · unfold resultGood resultEvil
    rw [if_neg hw, if_neg hw]
    exact ⟨rfl, rfl⟩
  · unfold entryDelta
    rw [if_neg ht]
  · constructor
    · intro hmem
      have h := (List.mem_filter.mp hmem).2
      simp only [beq_iff_eq] at h
      exact ht h
    · intro hmem
      have h := (List.mem_filter.mp hmem).2
      simp only [beq_iff_eq] at h
      exact hv h
  · obtain ⟨pl, h1, rec, h2, h3, h4⟩ := processGame_delta_recorded m g e he
    refine ⟨pl, h1, rec, h2, h3, ?_⟩
    rw [h4]
    unfold entryDelta
    rw [if_neg ht]

/-- Witness for C10 at a concrete game with winning_team written in lower
case and a Traveller-team player. -/
theorem C10_exact_string_comparison_witness :
    (resultGood gameC10 = 0 ∧ resultEvil gameC10 = 1) ∧
    entryDelta [] gameC10 eN = ELO_K_FACTOR * (resultEvil gameC10 - expEvilOf [] gameC10) ∧
    (eN ∉ teamGood gameC10 ∧ eN ∉ teamEvil gameC10) ∧
    (∃ pl, pmLookup (processGame [] gameC10) eN.name = some pl ∧
      ∃ rec ∈ pl.game_history, rec.game_number = gameC10.game_id ∧
        rec.rating_after - rec.rating_before =
          ELO_K_FACTOR * (resultEvil gameC10 - expEvilOf [] gameC10)) :=
  ⟨(C10_exact_string_comparison [] gameC10 eN).1 (by decide),
   (C10_exact_string_comparison [] gameC10 eN).2.1 (by decide),
   (C10_exact_string_comparison [] gameC10 eN).2.2.1 (by decide) (by decide),
   (C10_exact_string_comparison [] gameC10 eN).2.2.2 (by simp [gameC10]) (by decide)⟩

/-- C6: at every point during and after a replay of a history in which
every player entry is on team Good or Evil, every player of the map
satisfies games_good + games_evil = games_overall. -/
theorem C6_counter_invariant (m : PlayersMap) (log : List Game) (k : ℕ)
    (hteams : ∀ g ∈ log, ∀ e ∈ g.players, e.team = "Good" ∨ e.team = "Evil") :
    counterInv (partialReplay m log k) := by
  unfold partialReplay
  refine foldl_processGame_counterInv _ _ ?_ ?_
  · intro np hnp
    simp only [List.mem_map] at hnp
    obtain ⟨nq, _, rfl⟩ := hnp
    simp [resetPlayer]
  · intro g hg
    have h1 : g ∈ sortGames log := List.mem_of_mem_take hg
    exact hteams g ((List.mergeSort_perm log _).mem_iff.mp h1)

/-- Witness for C6: the invariant after replaying the worked scenario game. -/
theorem C6_counter_invariant_witness : counterInv (partialReplay [] [gameA] 1) :=
  C6_counter_invariant [] [gameA] 1 (by decide)

/-- C7: on a player whose snapshot list is non-empty and ascending in
match number (as replay produces it), get_rating_delta over the range
start..end equals the spec value: rating_after(end) minus
rating_before(start), where rating_before is the most recent snapshot
strictly before start (DEFAULT_RATING if none) and rating_after is the
snapshot at end, else the nearest one at or before end, undefined when no
snapshot is at or before end. -/
theorem C7_rating_delta_range (p : Player) (s endg : Int)
    (hne : p.rating_history ≠ [])
    (hsorted : List.Pairwise (fun a b => a.game_number < b.game_number) p.rating_history) :
    get_rating_delta p (some s) (some endg) = ratingDeltaSpec p s endg := by
  unfold get_rating_delta ratingDeltaSpec ratingAfterSpec ratingBeforeSpec
  dsimp only
  rw [if_neg (by simpa using hne)]
  rw [findRatingBefore_spec _ _ _ hsorted, findRatingAtEnd_spec _ _ hsorted]
  unfold findRatingLE
  rw [reverse_find_eq_filter_getLast]
  cases hf : p.rating_history.find? (fun e => decide (e.game_number = endg)) <;>
    cases hl : (p.rating_history.filter (fun e => decide (e.game_number ≤ endg))).getLast? <;>
      simp

/-- Witness for C7 at a concrete two-snapshot player and range 2..2. -/
theorem C7_rating_delta_range_witness :
    playerW.rating_history ≠ [] ∧
    List.Pairwise (fun a b => a.game_number < b.game_number) playerW.rating_history ∧
    get_rating_delta playerW (some 2) (some 2) = ratingDeltaSpec playerW 2 2 :=
  ⟨by simp [playerW], by simp [playerW],
   C7_rating_delta_range playerW 2 2 (by simp [playerW]) (by simp [playerW])⟩

/-- C1 counterexample: delete the only game of the history [gameA] (id 1)
the way delete_selected does and replay: player A survives as a stale
reset entry, while a replay of the history that never contained the game
has no player A at all, so the two states do not have the same set of
player names. -/
theorem C1_deletion_counterexample :
    (pmLookup (recalc_all (recalc_all [] [gameA])
        ([gameA].filter (fun g => decide (g.game_id ≠ 1)))) "A").isSome = true ∧
    pmLookup (recalc_all [] ([gameA].filter (fun g => decide (g.game_id ≠ 1)))) "A" =
      none := by
  have hfil : [gameA].filter (fun g => decide (g.game_id ≠ 1)) = [] := by
    simp [gameA]
  rw [hfil, recalc_all_nil, recalc_all_nil, pmLookup_map_reset]
  constructor
  · have hs : (pmLookup (recalc_all [] [gameA]) "A").isSome := by
      unfold recalc_all sortGames
      rw [List.mergeSort_singleton]
      simp only [List.map_nil, List.foldl_cons, List.foldl_nil]
      exact processGame_isSome_of_mem [] gameA entryA (by simp [gameA])
    cases hx : pmLookup (recalc_all [] [gameA]) "A" with
    | none => rw [hx] at hs; simp at hs
    | some p => rfl
  · simp [pmLookup]

/-- C1 amended: after deleting a match by game_id and replaying from the
existing (name-consistent) players dict, the resulting state agrees with a
from-scratch replay of the remaining history on every player name that
occurs in the remaining history; a name that does not occur there is kept
as a reset default entry exactly when it was already known, while the
from-scratch replay does not contain it. -/
theorem C1_deletion_consistency_amended (P : PlayersMap) (h : List Game) (mid : Int)
    (hwf : nameConsistent P) :
    (∀ n, occursIn (h.filter (fun g => decide (g.game_id ≠ mid))) n →
      pmLookup (recalc_all P (h.filter (fun g => decide (g.game_id ≠ mid)))) n =
        pmLookup (recalc_all [] (h.filter (fun g => decide (g.game_id ≠ mid)))) n) ∧
    (∀ n, ¬ occursIn (h.filter (fun g => decide (g.game_id ≠ mid))) n →
      pmLookup (recalc_all P (h.filter (fun g => decide (g.game_id ≠ mid)))) n =
        (pmLookup P n).map resetPlayer ∧
      pmLookup (recalc_all [] (h.filter (fun g => decide (g.game_id ≠ mid)))) n =
        none) := by
  have hrel := recalc_rel P (h.filter (fun g => decide (g.game_id ≠ mid))) hwf
  constructor
  · intro n hocc
    rcases hrel n with heq | ⟨h1, h2⟩
    · exact heq
    · exfalso
      obtain ⟨g, hg, e, he, hname⟩ := hocc
      have hmem : g ∈ sortGames (h.filter (fun g => decide (g.game_id ≠ mid))) :=
        (List.mergeSort_perm _ _).mem_iff.mpr hg
      have hs : (pmLookup (recalc_all []
          (h.filter (fun g => decide (g.game_id ≠ mid)))) n).isSome := by
        unfold recalc_all
        exact foldl_games_isSome_of_occurs _ _ n ⟨g, hmem, e, he, hname⟩
      rw [h2] at hs
      simp at hs
  · intro n hnocc
    have hni : ∀ g ∈ sortGames (h.filter (fun g => decide (g.game_id ≠ mid))),
        ∀ e ∈ g.players, e.name ≠ n := by
      intro g hg e he hname
      exact hnocc ⟨g, (List.mergeSort_perm _ _).mem_iff.mp hg, e, he, hname⟩
    constructor
    · unfold recalc_all
      rw [foldl_games_lookup_not_occurs _ n hni, pmLookup_map_reset]
    · unfold recalc_all
      rw [foldl_games_lookup_not_occurs _ n hni]
      simp [pmLookup]

/-- Witness for the amended C1 at a concrete stale dict and two-game
history from which game 7 is deleted. -/
theorem C1_deletion_consistency_amended_witness :
    nameConsistent [("Z", Player.new "Z")] ∧
    occursIn ([gameA, gameC4].filter (fun g => decide (g.game_id ≠ 7))) "A" ∧
    pmLookup (recalc_all [("Z", Player.new "Z")]
        ([gameA, gameC4].filter (fun g => decide (g.game_id ≠ 7)))) "A" =
      pmLookup (recalc_all []
        ([gameA, gameC4].filter (fun g => decide (g.game_id ≠ 7)))) "A" := by
  have pf1 : nameConsistent [("Z", Player.new "Z")] := by
    intro np hnp
    rcases List.mem_singleton.mp hnp with rfl
    rfl
  have pf2 : occursIn ([gameA, gameC4].filter (fun g => decide (g.game_id ≠ 7))) "A" := by
    refine ⟨gameA, by simp [gameA], entryA, by simp [gameA], rfl⟩
  exact ⟨pf1, pf2, (C1_deletion_consistency_amended [("Z", Player.new "Z")]
    [gameA, gameC4] 7 pf1).1 "A" pf2⟩

/-- C2 counterexample: the leaderboard does not list all players — after
replaying the single worked-scenario game both players exist, yet the
refreshed table is empty, because refresh_player_table skips every player
with fewer than 5 games. -/
theorem C2_leaderboard_counterexample :
    refresh_player_table (recalc_all [] [gameA]) none none = [] ∧
    (pmLookup (recalc_all [] [gameA]) "A").isSome = true := by
  constructor
  · unfold refresh_player_table
    rw [refresh_fold_spec]
    have hfil : (sortPlayersDesc (recalc_all [] [gameA])).filter
        (fun np => decide (5 ≤ np.2.games_overall)) = [] := by
      rw [List.filter_eq_nil_iff]
      intro np hnp
      have hmem : np ∈ recalc_all [] [gameA] := by
        have := hnp
        unfold sortPlayersDesc at this
        exact (List.mergeSort_perm _ _).mem_iff.mp this
      have hval : np.2.games_overall ∈
          (recalc_all [] [gameA]).map (fun np => np.2.games_overall) :=
        List.mem_map_of_mem _ hmem
      rw [recalcA_games_overall] at hval
      simp only [List.mem_cons, List.not_mem_nil, or_false] at hval
      simp only [decide_eq_true_eq]
      rcases hval with h1 | h1 <;> omega
    rw [hfil]
    simp
  · have hs := processGame_isSome_of_mem [] gameA entryA (by simp [gameA])
    unfold recalc_all sortGames
    rw [List.mergeSort_singleton]
    simpa only [List.map_nil, List.foldl_cons, List.foldl_nil] using hs

/-- C2 amended: the refreshed players table lists exactly the players with
at least 5 games, in stable order of current rating descending, with rank
counting the listed rows from 1, and each row carries the player's current
rating, the latest snapshot's three win percentages (none when there is no
snapshot) and the games_overall count. -/
theorem C2_leaderboard_amended (m : PlayersMap) (s e : Option Int) :
    refresh_player_table m s e =
      (List.enumFrom 1 ((sortPlayersDesc m).filter
        (fun np => decide (5 ≤ np.2.games_overall)))).map
          (fun ie => rowOf ie.1 ie.2 s e) ∧
    List.Pairwise (fun a b : String × Player => b.2.current_rating ≤ a.2.current_rating)
      (sortPlayersDesc m) ∧
    (∀ np ∈ m, 5 ≤ np.2.games_overall →
      np.1 ∈ (refresh_player_table m s e).map (fun row => row.name)) := by
  have hpart1 : refresh_player_table m s e =
      (List.enumFrom 1 ((sortPlayersDesc m).filter
        (fun np => decide (5 ≤ np.2.games_overall)))).map
          (fun ie => rowOf ie.1 ie.2 s e) := by
    unfold refresh_player_table
    rw [refresh_fold_spec]
    simp
  refine ⟨hpart1, ?_, ?_⟩
  · have h := @List.sorted_mergeSort (String × Player)
      (fun a b : String × Player => decide (b.2.current_rating ≤ a.2.current_rating))
      (fun a b c hab hbc => by
        simp only [decide_eq_true_eq] at hab hbc ⊢
        exact le_trans hbc hab)
      (fun a b => by
        simp only [Bool.or_eq_true, decide_eq_true_eq]
        exact le_total b.2.current_rating a.2.current_rating)
      m
    exact h.imp (fun hab => by simpa using hab)
  · intro np hnp h5
    rw [hpart1, List.map_map]
    have hcomp : ((fun row => LeaderboardRow.name row) ∘ (fun ie => rowOf ie.1 ie.2 s e)) =
        (fun ie : ℕ × (String × Player) => ie.2.1) := rfl
    rw [hcomp, enumFrom_map_snd_fst]
    have hmem : np ∈ (sortPlayersDesc m).filter
        (fun np => decide (5 ≤ np.2.games_overall)) := by
      refine List.mem_filter.mpr ⟨?_, by simpa using h5⟩
      unfold sortPlayersDesc
      exact (List.mergeSort_perm _ _).mem_iff.mpr hnp
    exact List.mem_map_of_mem _ hmem

/-- Witness for the amended C2 at a one-player map with five games. -/
theorem C2_leaderboard_amended_witness :
    ("V", playerV) ∈ [("V", playerV)] ∧ 5 ≤ playerV.games_overall ∧
    "V" ∈ (refresh_player_table [("V", playerV)] none none).map
      (fun row => row.name) := by
  have h1 : ("V", playerV) ∈ [("V", playerV)] := List.mem_singleton.mpr rfl
  have h2 : 5 ≤ playerV.games_overall := by decide
  exact ⟨h1, h2,
    (C2_leaderboard_amended [("V", playerV)] none none).2.2 ("V", playerV) h1 h2⟩

/-- C8: for every list of matches, the per-role aggregate counts a
non-empty role exactly once per match that contains at least one holder of
the role, and counts the match as a win for the role exactly when some
holder of the role is on the winning team; a role held in no match has no
bucket. -/
theorem C8_role_aggregation (games : List Game) (r : String) (hr : r ≠ "") :
    alookup (charStats games) r =
      if games.countP (fun g => decide (matchHasRole r g)) = 0 then none
      else some (games.countP (fun g => decide (matchHasRole r g)),
                 games.countP (fun g => decide (matchRoleWon r g))) := by
  unfold charStats
  rw [charStats_fold r hr games []]
  by_cases hz : games.countP (fun g => decide (matchHasRole r g)) = 0 <;>
    simp [hz, alookup]

/-- Witness for C8: a single game with two Legion holders counts one game
and one win for Legion. -/
theorem C8_role_aggregation_witness :
    ("Legion" : String) ≠ "" ∧
    alookup (charStats [gameLegion]) "Legion" = some (1, 1) := by
  refine ⟨by decide, ?_⟩
  rw [C8_role_aggregation [gameLegion] "Legion" (by decide)]
  decide

/-- C9: submitting a new game and saving an edited one fail with a
validation error exactly when either radio selection is absent or invalid;
the failure happens before any state is produced (the pure embedding of
the early return, which leaves the game log and all player state
untouched); with both selections valid, submit appends exactly one new
record carrying the next game id and save replaces the target game in
place, keeping every game id and every other game, and both rebuild the
player state from the new log. -/
theorem C9_validation (st : AppState) (t1 t2 : String) (es ws : Int)
    (gm stq d : String) (tid : Int) :
    (¬ validSel es ws →
      submit_game st t1 t2 es ws gm stq d =
        Except.error "Please select which team is Evil and which team won." ∧
      save_changes st tid t1 t2 es ws =
        Except.error "Select which team is Evil and which won.") ∧
    (validSel es ws →
      (∃ rec s2, submit_game st t1 t2 es ws gm stq d = Except.ok s2 ∧
        s2.game_log = st.game_log ++ [rec] ∧ rec.game_id = st.next_game_id ∧
        s2.players = recalc_all st.players (st.game_log ++ [rec]) ∧
        s2.next_game_id = st.next_game_id + 1) ∧
      (∃ s2, save_changes st tid t1 t2 es ws = Except.ok s2 ∧
        s2.game_log.map (fun g => g.game_id) = st.game_log.map (fun g => g.game_id) ∧
        (∀ g ∈ st.game_log, g.game_id ≠ tid → g ∈ s2.game_log) ∧
        s2.players = recalc_all st.players s2.game_log ∧
        s2.next_game_id = st.next_game_id)) := by
  constructor
  · intro hv
    have hv2 : ¬ ((es = 1 ∨ es = 2) ∧ (ws = 1 ∨ ws = 2)) := hv
    simp only [submit_game, save_changes]
    rw [if_pos hv2, if_pos hv2]
    exact ⟨rfl, rfl⟩
  · intro hv
    have hv2 : (es = 1 ∨ es = 2) ∧ (ws = 1 ∨ ws = 2) := hv
    constructor
    · simp only [submit_game]
      rw [if_neg (not_not_intro hv2)]
      exact ⟨_, _, rfl, rfl, rfl, rfl, rfl⟩
    · simp only [save_changes]
      rw [if_neg (not_not_intro hv2)]
      refine ⟨_, rfl, ?_, ?_, rfl, rfl⟩
      · rw [List.map_map]
        refine List.map_congr_left (fun g hg => ?_)
        by_cases h : g.game_id = tid <;> simp [h]
      · intro g hg hne
        refine List.mem_map.mpr ⟨g, hg, ?_⟩
        rw [if_neg hne]

/-- Witness for C9: an invalid selection is rejected, a valid one appends
one record with the next id, at a concrete empty state. -/
theorem C9_validation_witness :
    (¬ validSel 0 2) ∧
    submit_game st0 "Alice Imp" "Bob Soldier" 0 2 "Trouble Brewing" "Sam" "2024-05-05" =
      Except.error "Please select which team is Evil and which team won." ∧
    validSel 1 2 ∧
    (∃ rec s2, submit_game st0 "Alice Imp" "Bob Soldier" 1 2 "Trouble Brewing" "Sam"
        "2024-05-05" = Except.ok s2 ∧
      s2.game_log = st0.game_log ++ [rec] ∧ rec.game_id = st0.next_game_id ∧
      s2.players = recalc_all st0.players (st0.game_log ++ [rec]) ∧
      s2.next_game_id = st0.next_game_id + 1) := by
  have h1 : ¬ validSel 0 2 := by decide
  have h2 : validSel 1 2 := by decide
  exact ⟨h1,
    ((C9_validation st0 "Alice Imp" "Bob Soldier" 0 2 "Trouble Brewing" "Sam"
      "2024-05-05" 0).1 h1).1,
    h2,
    ((C9_validation st0 "Alice Imp" "Bob Soldier" 1 2 "Trouble Brewing" "Sam"
      "2024-05-05" 0).2 h2).1⟩

end BotcClaims
